import Mathlib

/-!
# Verification of `src/stocks/commands/write_stock.py`

A shallow embedding of the stock write module: the MySQL store of record is a
list of `(product_id, quantity)` rows plus a read-only product table, and the
Redis cache is an association list from product id to a field mapping.  Python
exceptions are modelled with explicit failure-injection arguments, and the
`try/except/finally` session management is reflected in the returned outcome
(result, final state, whether the session was closed).
-/

set_option autoImplicit false

namespace WriteStock

/-- A row of the `products` table (`id`, `name`, `sku`, `price`).  The decimal
`price` column is modelled as a rational; Python's `float(...)` conversion is
modelled as the identity on the numeric value. -/
structure Product where
  id : Int
  name : String
  sku : String
  price : Rat
deriving DecidableEq

/-- A row of the `stocks` table: `(product_id, quantity)`. -/
abbrev StockRow := Int × Int

/-- A Redis hash at key `stock:<product_id>`.  Each field is `none` when the
field is absent from the hash.  `hset` with a mapping overwrites exactly the
fields present in the mapping (field-level upsert), so a mapping is also an
`Entry` whose present fields are the `some` ones. -/
structure Entry where
  quantity : Option Int := none
  name : Option String := none
  sku : Option String := none
  price : Option Rat := none
deriving DecidableEq

/-- The Redis keyspace, restricted to the `stock:*` namespace this module
touches: an association list from product id to hash entry.
`scan_iter "stock:*"` returns nothing exactly when this list is empty. -/
abbrev Redis := List (Int × Entry)

/-- The MySQL database: the `stocks` table and the read-only `products` table. -/
structure MySQL where
  stocks : List StockRow
  products : List Product
deriving DecidableEq

/-- `some a` wins over the fallback; `none` falls back. -/
def orElseField {α : Type} : Option α → Option α → Option α
  | some a, _ => some a
  | none, b => b

/-- Field-level upsert of mapping `m` into an existing hash `old`: fields
present in `m` win, absent fields keep their old value. -/
def mergeEntry (old m : Entry) : Entry :=
  { quantity := orElseField m.quantity old.quantity
    name := orElseField m.name old.name
    sku := orElseField m.sku old.sku
    price := orElseField m.price old.price }

/-- `redis.hset ("stock:" ++ pid) mapping`: create the hash with exactly the
mapping's fields if the key is absent, otherwise field-level upsert. -/
def hset : Redis → Int → Entry → Redis
  | [], pid, m => [(pid, m)]
  | (p, e) :: rest, pid, m =>
    if p = pid then (p, mergeEntry e m) :: rest
    else (p, e) :: hset rest pid m

/-- Look up the hash stored at key `stock:<pid>`. -/
def rlookup : Redis → Int → Option Entry
  | [], _ => none
  | (p, e) :: rest, pid => if p = pid then some e else rlookup rest pid

/-- The keys present in the cache, in storage order. -/
def rkeys (r : Redis) : List Int :=
  r.map (fun pe => pe.1)

/-- `r.hget ("stock:" ++ pid) "quantity"` followed by
`int(current_stock) if current_stock else 0`: a missing key, a missing field,
or a falsy value all yield `0`. -/
def getQty (r : Redis) (pid : Int) : Int :=
  match rlookup r pid with
  | none => 0
  | some e =>
    match e.quantity with
    | none => 0
    | some q => q

/-- The quantity field of the hash at `stock:<pid>`, `none` when the key or
the field is absent. -/
def qtyField (r : Redis) (pid : Int) : Option Int :=
  (rlookup r pid).bind Entry.quantity

/-- Row count reported by `UPDATE stocks SET quantity = :qty WHERE
product_id = :pid` (the SQLAlchemy MySQL dialect reports matched rows). -/
def countRows (stocks : List StockRow) (pid : Int) : Nat :=
  (stocks.filter (fun row => row.1 = pid)).length

/-- Effect of `UPDATE stocks SET quantity = :qty WHERE product_id = :pid`. -/
def sqlUpdateSet (stocks : List StockRow) (pid qty : Int) : List StockRow :=
  stocks.map (fun row => if row.1 = pid then (row.1, qty) else row)

/-- `session.query(Product).filter(Product.id == pid).first()`. -/
def findProduct (products : List Product) (pid : Int) : Option Product :=
  products.find? (fun p => p.id = pid)

/-- The quantity of the (unique-keyed) stock row for `pid`, if present. -/
def lookupStock (stocks : List StockRow) (pid : Int) : Option Int :=
  (stocks.find? (fun row => row.1 = pid)).map (fun row => row.2)

/-- The operation symbol passed to the update functions: `"+"` or `"-"`. -/
inductive Op
  | plus
  | minus
deriving DecidableEq

/-- `operation == '+'` selects addition; anything else falls into the `else`
branch and subtracts. -/
def applyOp : Op → Int → Int → Int
  | .plus, cur, d => cur + d
  | .minus, cur, d => cur - d

/-- Effect of `UPDATE stocks SET quantity = quantity {op} :qty WHERE
product_id = :pid`. -/
def sqlUpdateAdjust (stocks : List StockRow) (pid qty : Int) (op : Op) :
    List StockRow :=
  stocks.map (fun row => if row.1 = pid then (row.1, applyOp op row.2 qty) else row)

/-- An `OrderItem` is either an object exposing attributes or a dict: the two
constructors record which Python shape the item has. -/
inductive OrderItem
  | obj (product_id quantity : Int) (unit_price : Option Rat)
  | map (product_id quantity : Int) (unit_price : Option Rat)
deriving DecidableEq

/-- `hasattr(item, 'product_id')`: true for the object shape only. -/
def hasattrProductId : OrderItem → Bool
  | .obj _ _ _ => true
  | .map _ _ _ => false

/-- Attribute access `(item.product_id, item.quantity)`; raises
`AttributeError` (`none`) on a dict-shaped item. -/
def getAsObj : OrderItem → Option (Int × Int)
  | .obj p q _ => some (p, q)
  | .map _ _ _ => none

/-- Subscript access `(item['product_id'], item['quantity'])`; raises
`TypeError` (`none`) on an object-shaped item. -/
def getAsMap : OrderItem → Option (Int × Int)
  | .map p q _ => some (p, q)
  | .obj _ _ _ => none

/-- The exceptions the item-access expressions can raise. -/
inductive PyError
  | attributeError
  | typeError
deriving DecidableEq

/-- The per-item normalization `(product_id, quantity, unit_price)` used by
`update_stock_redis`, which checks `hasattr(item, 'product_id')` on each item
itself, so both shapes normalize without error. -/
def normalizeItem : OrderItem → Int × Int × Option Rat
  | .obj p q up => (p, q, up)
  | .map p q up => (p, q, up)

/-- The loop of `update_stock_mysql`.  NOTE: the shape test in the source is
`hasattr(order_items[0], 'product_id')` — it inspects the FIRST item of the
sequence on every iteration, not the current item — so the whole sequence is
accessed according to the first item's shape. -/
def update_stock_mysql_go (first : OrderItem) (op : Op) :
    List OrderItem → List StockRow → List StockRow × Option PyError
  | [], stocks => (stocks, none)
  | item :: rest, stocks =>
    if hasattrProductId first then
      match getAsObj item with
      | none => (stocks, some PyError.attributeError)
      | some (pid, qty) =>
        update_stock_mysql_go first op rest (sqlUpdateAdjust stocks pid qty op)
    else
      match getAsMap item with
      | none => (stocks, some PyError.typeError)
      | some (pid, qty) =>
        update_stock_mysql_go first op rest (sqlUpdateAdjust stocks pid qty op)

/-- `update_stock_mysql(session, order_items, operation)`: issues one
arithmetic UPDATE per item inside the caller's transaction.  Returns the
session's pending `stocks` table together with the exception raised, if any
(the exception aborts the loop and propagates; statements already executed
stay pending in the caller's session). -/
def update_stock_mysql (stocks : List StockRow) (items : List OrderItem)
    (op : Op) : List StockRow × Option PyError :=
  match items with
  | [] => (stocks, none)
  | first :: _ => update_stock_mysql_go first op items stocks

/-- `check_out_items_from_stock(session, order_items)`. -/
def check_out_items_from_stock (stocks : List StockRow)
    (items : List OrderItem) : List StockRow × Option PyError :=
  update_stock_mysql stocks items Op.minus

/-- `check_in_items_to_stock(session, order_items)`. -/
def check_in_items_to_stock (stocks : List StockRow)
    (items : List OrderItem) : List StockRow × Option PyError :=
  update_stock_mysql stocks items Op.plus

/-- A row of the rehydration query
`SELECT s.product_id, s.quantity, p.name, p.sku, p.price FROM stocks s JOIN
products p ON s.product_id = p.id`. -/
structure JoinedRow where
  product_id : Int
  quantity : Int
  name : String
  sku : String
  price : Rat
deriving DecidableEq

/-- The result set of the inner-join query: one row per stock row that has a
matching product, in stock-table order. -/
def joinRows (stocks : List StockRow) (products : List Product) :
    List JoinedRow :=
  match stocks with
  | [] => []
  | row :: rest =>
    match findProduct products row.1 with
    | some p => ⟨row.1, row.2, p.name, p.sku, p.price⟩ :: joinRows rest products
    | none => joinRows rest products

/-- Executing a queued pipeline: apply the buffered `hset` commands in order. -/
def writeAll (r : Redis) : List (Int × Entry) → Redis
  | [] => r
  | (pid, m) :: rest => writeAll (hset r pid m) rest

/-- The mapping rehydration queues for one joined row: all four fields,
`int(quantity)` and `float(price)` being the identity on the modelled
values. -/
def fullEntry (jr : JoinedRow) : Entry :=
  { quantity := some jr.quantity
    name := some jr.name
    sku := some jr.sku
    price := some jr.price }

/-- `_populate_redis_from_mysql(redis_conn)`: fetch the joined rows; if there
are none, return without touching the cache; otherwise queue one full
`{quantity, name, sku, price}` hset per row and execute the pipeline. -/
def _populate_redis_from_mysql (db : MySQL) (r : Redis) : Redis :=
  let rows := joinRows db.stocks db.products
  if rows.isEmpty then r
  else writeAll r (rows.map (fun jr => (jr.product_id, fullEntry jr)))

/-- Failure injection and session accounting for
`_populate_redis_from_mysql`: when the store-of-record fetch raises, the
`except` block re-raises the same exception and the `finally` block closes the
session; on success the session is closed as well.  The second component
records whether the session was closed. -/
def _populate_redis_from_mysqlE (db : MySQL) (r : Redis) (queryFails : Bool)
    (exc : Nat) : Except Nat Redis × Bool :=
  if queryFails then (Except.error exc, true)
  else (Except.ok (_populate_redis_from_mysql db r), true)

/-- The field mapping queued for one normalized item `(pid, qty, up)` of
`update_stock_redis`: the current quantity is read (`hget`) from the cache
state `r1` as it stands before any of this call's queued writes are flushed;
the new quantity is `current ± qty`; product enrichment comes from the bulk
product query (`product_map.get`), falling back to `unit_price` for the price
field only. -/
def buildMapping (products : List Product) (r1 : Redis) (op : Op) :
    Int × Int × Option Rat → Int × Entry
  | (pid, qty, up) =>
    let newq := applyOp op (getQty r1 pid) qty
    let m : Entry :=
      match findProduct products pid with
      | some p =>
        { quantity := some newq
          name := some p.name
          sku := some p.sku
          price := some p.price }
      | none =>
        match up with
        | some u => { quantity := some newq, price := some u }
        | none => { quantity := some newq }
    (pid, m)

/-- The per-item loop and final `pipeline.execute()` of `update_stock_redis`,
run against the cache state `r1` that followed the (possible) rehydration:
every `hget` reads `r1`, all `hset`s are queued and flushed together after the
loop. -/
def applyItems (db : MySQL) (r1 : Redis) (items : List OrderItem) (op : Op) :
    Redis :=
  writeAll r1 ((items.map normalizeItem).map (buildMapping db.products r1 op))

/-- `update_stock_redis(order_items, operation)`: no-op on an empty sequence;
rehydrate from MySQL when the `stock:*` scan finds nothing; then process the
items against the resulting cache state. -/
def update_stock_redis (db : MySQL) (r : Redis) (items : List OrderItem)
    (op : Op) : Redis :=
  if items.isEmpty then r
  else
    let r1 := if r.isEmpty then _populate_redis_from_mysql db r else r
    applyItems db r1 items op

/-- The full mutable state touched by `set_stock_for_product`. -/
structure SysState where
  stocks : List StockRow
  products : List Product
  redis : Redis
deriving DecidableEq

/-- Result of `set_stock_for_product`: the returned message or the re-raised
exception (identified by an opaque code). -/
inductive WResult
  | ok (msg : String)
  | err (e : Nat)
deriving DecidableEq

/-- The points of `set_stock_for_product` at which a failure can be injected,
in program order: the UPDATE, the conditional INSERT/flush, the commit, the
product query, and the Redis hset. -/
inductive FailPoint
  | updateStep
  | insertStep
  | commitStep
  | queryStep
  | hsetStep
deriving DecidableEq

/-- Outcome of `set_stock_for_product`: returned value or exception, final
system state, and whether the session was closed. -/
structure WriteOutcome where
  result : WResult
  state : SysState
  sessionClosed : Bool
deriving DecidableEq

/-- `set_stock_for_product(product_id, quantity)` with failure injection:
UPDATE by key; if zero rows matched, INSERT a new `Stock` row; commit; query
the product; hset `{quantity}` plus enrichment when the product exists.  On
any exception the `except` block rolls the session back (discarding pending,
uncommitted changes) and re-raises the same exception; the `finally` block
closes the session on every path. -/
def set_stock_for_product (st : SysState) (pid qty : Int)
    (failAt : Option FailPoint) (exc : Nat) : WriteOutcome :=
  if failAt = some FailPoint.updateStep then
    { result := WResult.err exc, state := st, sessionClosed := true }
  else
    let rowcount := countRows st.stocks pid
    if rowcount = 0 ∧ failAt = some FailPoint.insertStep then
      { result := WResult.err exc, state := st, sessionClosed := true }
    else
      let pending :=
        if rowcount = 0 then sqlUpdateSet st.stocks pid qty ++ [(pid, qty)]
        else sqlUpdateSet st.stocks pid qty
      let msg :=
        if rowcount = 0 then "rows added: " ++ toString pid
        else "rows updated: " ++ toString rowcount
      if failAt = some FailPoint.commitStep then
        { result := WResult.err exc, state := st, sessionClosed := true }
      else
        let committed : SysState := { st with stocks := pending }
        if failAt = some FailPoint.queryStep then
          { result := WResult.err exc, state := committed, sessionClosed := true }
        else
          let payload : Entry :=
            match findProduct st.products pid with
            | some p =>
              { quantity := some qty
                name := some p.name
                sku := some p.sku
                price := some p.price }
            | none => { quantity := some qty }
          if failAt = some FailPoint.hsetStep then
            { result := WResult.err exc, state := committed, sessionClosed := true }
          else
            { result := WResult.ok msg
              state := { committed with redis := hset committed.redis pid payload }
              sessionClosed := true }

/-! ## Specification-side observation functions

The following functions are not part of the embedded program; they are the
observations the theorems below are stated with. -/

/-- The quantity set by the last queued write for `pid` that carries a
`quantity` field, if any. -/
def lastWriteQty (pid : Int) : List (Int × Entry) → Option Int
  | [] => none
  | w :: rest =>
    match lastWriteQty pid rest with
    | some q => some q
    | none => if w.1 = pid then w.2.quantity else none

/-- The quantity carried by the last item of the sequence whose normalized
product id is `pid`, if any. -/
def lastQty (pid : Int) : List OrderItem → Option Int
  | [] => none
  | i :: rest =>
    match lastQty pid rest with
    | some d => some d
    | none =>
      if (normalizeItem i).1 = pid then some (normalizeItem i).2.1 else none

/-- The pure effect of a successful `update_stock_mysql` run: one arithmetic
UPDATE per item, in order. -/
def adjustAll (stocks : List StockRow) (items : List OrderItem) (op : Op) :
    List StockRow :=
  match items with
  | [] => stocks
  | i :: rest =>
    adjustAll (sqlUpdateAdjust stocks (normalizeItem i).1 (normalizeItem i).2.1 op)
      rest op

/-- The sum of the quantities of all items whose product id is `pid`. -/
def sumQty (pid : Int) : List OrderItem → Int
  | [] => 0
  | i :: rest =>
    (if (normalizeItem i).1 = pid then (normalizeItem i).2.1 else 0) + sumQty pid rest

/-- All items share the Python shape of the first item, so the shape test
`hasattr(order_items[0], 'product_id')` gives the right accessor for each. -/
def uniformShape : List OrderItem → Bool
  | [] => true
  | first :: rest => rest.all (fun i => hasattrProductId i == hasattrProductId first)

/-- First (with unique keys: only) queued mapping for `pid`. -/
def wsLookup : List (Int × Entry) → Int → Option Entry
  | [], _ => none
  | w :: rest, pid => if w.1 = pid then some w.2 else wsLookup rest pid

/-! ## Association-list lemmas for the Redis model -/

theorem hset_ne_nil (r : Redis) (pid : Int) (m : Entry) : hset r pid m ≠ [] := by
  cases r with
  | nil => simp [hset]
  | cons head rest =>
    obtain ⟨p, e⟩ := head
    by_cases h : p = pid <;> simp [hset, h]

theorem writeAll_ne_nil (ws : List (Int × Entry)) (r : Redis) (h : r ≠ []) :
    writeAll r ws ≠ [] := by
  induction ws generalizing r with
  | nil => simpa [writeAll] using h
  | cons w rest ih =>
    obtain ⟨pid, m⟩ := w
    exact ih (hset r pid m) (hset_ne_nil r pid m)

theorem rlookup_hset_self (r : Redis) (pid : Int) (m : Entry) :
    rlookup (hset r pid m) pid =
      some (match rlookup r pid with
            | none => m
            | some e => mergeEntry e m) := by
  induction r with
  | nil => simp [hset, rlookup]
  | cons head rest ih =>
    obtain ⟨p, e⟩ := head
    by_cases h : p = pid
    · subst h
      simp [hset, rlookup]
    · simp [hset, rlookup, h, ih]

theorem rlookup_hset_other (r : Redis) (pid : Int) (m : Entry) (p : Int)
    (h : p ≠ pid) : rlookup (hset r pid m) p = rlookup r p := by
  induction r with
  | nil => simp [hset, rlookup, Ne.symm h]
  | cons head rest ih =>
    obtain ⟨p0, e⟩ := head
    by_cases h0 : p0 = pid
    · subst h0
      simp [hset, rlookup, Ne.symm h]
    · simp [hset, rlookup, h0, ih]

theorem qtyField_hset (r : Redis) (pid : Int) (m : Entry) :
    qtyField (hset r pid m) pid =
      match m.quantity with
      | some q => some q
      | none => qtyField r pid := by
  rw [qtyField, rlookup_hset_self]
  cases hm : m.quantity <;> cases hr : rlookup r pid <;>
    simp [qtyField, mergeEntry, orElseField, hm, hr]

theorem qtyField_writeAll (ws : List (Int × Entry)) (r : Redis) (pid : Int) :
    qtyField (writeAll r ws) pid =
      match lastWriteQty pid ws with
      | some q => some q
      | none => qtyField r pid := by
  induction ws generalizing r with
  | nil => simp [writeAll, lastWriteQty]
  | cons w rest ih =>
    obtain ⟨p, m⟩ := w
    rw [writeAll, ih]
    cases hlast : lastWriteQty pid rest with
    | some q => simp [lastWriteQty, hlast]
    | none =>
      simp only [lastWriteQty, hlast]
      by_cases hp : p = pid
      · subst hp
        rw [qtyField_hset]
        cases m.quantity <;> simp
      · simp only [qtyField, rlookup_hset_other r p m pid (Ne.symm hp), hp]
        simp

theorem getQty_eq (r : Redis) (pid : Int) :
    getQty r pid = (qtyField r pid).getD 0 := by
  rw [getQty, qtyField]
  cases hr : rlookup r pid with
  | none => simp
  | some e => cases hq : e.quantity <;> simp [hq]

/-! ## Per-item quantity tracking for `update_stock_redis` -/

theorem buildMapping_fst (products : List Product) (r1 : Redis) (op : Op)
    (t : Int × Int × Option Rat) :
    (buildMapping products r1 op t).1 = t.1 := by
  obtain ⟨pid, qty, up⟩ := t
  rfl

theorem buildMapping_quantity (products : List Product) (r1 : Redis) (op : Op)
    (pid qty : Int) (up : Option Rat) :
    (buildMapping products r1 op (pid, qty, up)).2.quantity
      = some (applyOp op (getQty r1 pid) qty) := by
  cases hfp : findProduct products pid <;> cases up <;> simp [buildMapping, hfp]

theorem lastWriteQty_buildMappings (products : List Product) (r1 : Redis)
    (op : Op) (items : List OrderItem) (pid : Int) :
    lastWriteQty pid ((items.map normalizeItem).map (buildMapping products r1 op))
      = (lastQty pid items).map (fun d => applyOp op (getQty r1 pid) d) := by
  induction items with
  | nil => simp [lastWriteQty, lastQty]
  | cons i rest ih =>
    rcases hni : normalizeItem i with ⟨p, q, up⟩
    simp only [List.map_cons, lastWriteQty, lastQty, ih, hni,
      buildMapping_fst products r1 op (p, q, up)]
    cases hlast : lastQty pid rest with
    | some d => simp
    | none =>
      simp only [hlast]
      by_cases hp : p = pid
      · subst hp
        simp [buildMapping_quantity]
      · simp [hp]

theorem qtyField_applyItems (db : MySQL) (r1 : Redis) (items : List OrderItem)
    (op : Op) (pid : Int) :
    qtyField (applyItems db r1 items op) pid =
      match lastQty pid items with
      | some d => some (applyOp op (getQty r1 pid) d)
      | none => qtyField r1 pid := by
  rw [applyItems, qtyField_writeAll, lastWriteQty_buildMappings]
  cases lastQty pid items <;> simp

theorem update_stock_redis_eq_applyItems (db : MySQL) (r : Redis)
    (items : List OrderItem) (op : Op) (hi : items ≠ []) :
    update_stock_redis db r items op
      = applyItems db (if r.isEmpty then _populate_redis_from_mysql db r else r)
          items op := by
  cases items with
  | nil => exact absurd rfl hi
  | cons i rest => rfl

theorem qtyField_update_stock_redis (db : MySQL) (r : Redis)
    (items : List OrderItem) (op : Op) (pid : Int)
    (hi : items ≠ []) (hr : r ≠ []) :
    qtyField (update_stock_redis db r items op) pid =
      match lastQty pid items with
      | some d => some (applyOp op (getQty r pid) d)
      | none => qtyField r pid := by
  rw [update_stock_redis_eq_applyItems db r items op hi]
  cases r with
  | nil => exact absurd rfl hr
  | cons x xs => exact qtyField_applyItems db (x :: xs) items op pid

/-! ## The MySQL batch path as a fold of arithmetic updates -/

theorem update_stock_mysql_go_uniform (first : OrderItem) (op : Op)
    (items : List OrderItem) (stocks : List StockRow)
    (h : ∀ i ∈ items, hasattrProductId i = hasattrProductId first) :
    update_stock_mysql_go first op items stocks = (adjustAll stocks items op, none) := by
  induction items generalizing stocks with
  | nil => simp [update_stock_mysql_go, adjustAll]
  | cons i rest ih =>
    have hi : hasattrProductId i = hasattrProductId first := h i (by simp)
    have hrest : ∀ j ∈ rest, hasattrProductId j = hasattrProductId first :=
      fun j hj => h j (List.mem_cons_of_mem i hj)
    cases hfirst : hasattrProductId first with
    | false =>
      cases i with
      | obj p q up =>
        rw [hfirst] at hi
        simp [hasattrProductId] at hi
      | map p q up =>
        rw [update_stock_mysql_go]
        simp only [hfirst, Bool.false_eq_true, if_false, getAsMap]
        rw [adjustAll]
        exact ih _ hrest
    | true =>
      cases i with
      | map p q up =>
        rw [hfirst] at hi
        simp [hasattrProductId] at hi
      | obj p q up =>
        rw [update_stock_mysql_go]
        simp only [hfirst, if_true, getAsObj]
        rw [adjustAll]
        exact ih _ hrest

theorem update_stock_mysql_uniform (stocks : List StockRow)
    (items : List OrderItem) (op : Op) (h : uniformShape items = true) :
    update_stock_mysql stocks items op = (adjustAll stocks items op, none) := by
  cases items with
  | nil => simp [update_stock_mysql, adjustAll]
  | cons first rest =>
    rw [update_stock_mysql]
    apply update_stock_mysql_go_uniform
    intro i hi
    rcases List.mem_cons.mp hi with h1 | h2
    · rw [h1]
    · have hall : ∀ x ∈ rest, hasattrProductId x = hasattrProductId first := by
        simpa [uniformShape] using h
      exact hall i h2

theorem applyOp_applyOp (op : Op) (x q s : Int) :
    applyOp op (applyOp op x q) s = applyOp op x (q + s) := by
  cases op <;> simp [applyOp] <;> omega

theorem adjustAll_eq_map (items : List OrderItem) (op : Op)
    (stocks : List StockRow) :
    adjustAll stocks items op
      = stocks.map (fun row => (row.1, applyOp op row.2 (sumQty row.1 items))) := by
  induction items generalizing stocks with
  | nil =>
    rw [adjustAll]
    have : ∀ row : StockRow, (row.1, applyOp op row.2 (sumQty row.1 [])) = row := by
      intro row
      cases op <;> simp [applyOp, sumQty]
    simp only [this, List.map_id']
  | cons i rest ih =>
    rcases hni : normalizeItem i with ⟨p, q, up⟩
    have hsum : ∀ pid, sumQty pid (i :: rest)
        = (if p = pid then q else 0) + sumQty pid rest := by
      intro pid
      simp [sumQty, hni]
    rw [adjustAll, ih, sqlUpdateAdjust, List.map_map, hni]
    apply List.map_congr_left
    intro row _
    rw [hsum row.1]
    simp only [Function.comp_apply]
    by_cases hx : row.1 = p
    · rw [if_pos hx, if_pos hx.symm]
      simp only
      rw [applyOp_applyOp]
    · rw [if_neg hx, if_neg (fun hh : p = row.1 => hx hh.symm)]
      simp

theorem adjustAll_plus_minus (stocks : List StockRow) (items : List OrderItem) :
    adjustAll (adjustAll stocks items Op.plus) items Op.minus = stocks := by
  rw [adjustAll_eq_map, adjustAll_eq_map, List.map_map]
  have hrow : ∀ row ∈ stocks,
      ((fun row => (row.1, applyOp Op.minus row.2 (sumQty row.1 items))) ∘
        (fun row => (row.1, applyOp Op.plus row.2 (sumQty row.1 items)))) row
        = id row := by
    intro row _
    simp [applyOp]
  rw [List.map_congr_left hrow, List.map_id]

theorem adjustAll_minus_plus (stocks : List StockRow) (items : List OrderItem) :
    adjustAll (adjustAll stocks items Op.minus) items Op.plus = stocks := by
  rw [adjustAll_eq_map, adjustAll_eq_map, List.map_map]
  have hrow : ∀ row ∈ stocks,
      ((fun row => (row.1, applyOp Op.plus row.2 (sumQty row.1 items))) ∘
        (fun row => (row.1, applyOp Op.minus row.2 (sumQty row.1 items)))) row
        = id row := by
    intro row _
    simp [applyOp]
  rw [List.map_congr_left hrow, List.map_id]

/-! ## Key-set and content lemmas for rehydration -/

theorem rlookup_eq_none_iff (r : Redis) (pid : Int) :
    rlookup r pid = none ↔ pid ∉ rkeys r := by
  induction r with
  | nil => simp [rlookup, rkeys]
  | cons head rest ih =>
    obtain ⟨p, e⟩ := head
    by_cases h : p = pid
    · subst h
      simp [rlookup, rkeys]
    · simp [rlookup, rkeys, h, ih, Ne.symm h]

theorem rkeys_hset_not_mem (r : Redis) (pid : Int) (m : Entry)
    (h : pid ∉ rkeys r) : rkeys (hset r pid m) = rkeys r ++ [pid] := by
  induction r with
  | nil => rfl
  | cons head rest ih =>
    obtain ⟨p, e⟩ := head
    have h' : pid ∉ p :: rkeys rest := h
    have hp : ¬p = pid := fun hh => h' (List.mem_cons.mpr (Or.inl hh.symm))
    have hrest : pid ∉ rkeys rest := fun hh => h' (List.mem_cons.mpr (Or.inr hh))
    show rkeys (if p = pid then (p, mergeEntry e m) :: rest
        else (p, e) :: hset rest pid m)
      = rkeys ((p, e) :: rest) ++ [pid]
    rw [if_neg hp]
    show p :: rkeys (hset rest pid m) = (p :: rkeys rest) ++ [pid]
    rw [ih hrest, List.cons_append]

theorem rkeys_writeAll (ws : List (Int × Entry)) (r : Redis)
    (hnd : (ws.map (fun w => w.1)).Nodup)
    (hdisj : ∀ p ∈ ws.map (fun w => w.1), p ∉ rkeys r) :
    rkeys (writeAll r ws) = rkeys r ++ ws.map (fun w => w.1) := by
  induction ws generalizing r with
  | nil => simp [writeAll]
  | cons w rest ih =>
    obtain ⟨p, m⟩ := w
    simp only [List.map_cons, List.nodup_cons] at hnd
    have hp : p ∉ rkeys r := hdisj p (by simp)
    have hdisj2 : ∀ x ∈ rest.map (fun w => w.1), x ∉ rkeys (hset r p m) := by
      intro x hx
      rw [rkeys_hset_not_mem r p m hp]
      intro hmem
      rcases List.mem_append.mp hmem with h1 | h2
      · exact hdisj x (by simp [hx]) h1
      · exact hnd.1 ((by simpa using h2) ▸ hx)
    rw [writeAll, ih (hset r p m) hnd.2 hdisj2, rkeys_hset_not_mem r p m hp]
    simp

theorem wsLookup_eq_none (ws : List (Int × Entry)) (pid : Int)
    (h : pid ∉ ws.map (fun w => w.1)) : wsLookup ws pid = none := by
  induction ws with
  | nil => rfl
  | cons w rest ih =>
    have hp : ¬w.1 = pid := fun hh => h (by simp [hh])
    simp [wsLookup, hp, ih (fun hh => h (by simp [hh]))]

theorem rlookup_writeAll_fresh (ws : List (Int × Entry)) (r : Redis) (pid : Int)
    (hnd : (ws.map (fun w => w.1)).Nodup)
    (hdisj : ∀ p ∈ ws.map (fun w => w.1), p ∉ rkeys r) :
    rlookup (writeAll r ws) pid =
      match wsLookup ws pid with
      | some m => some m
      | none => rlookup r pid := by
  induction ws generalizing r with
  | nil => simp [writeAll, wsLookup]
  | cons w rest ih =>
    obtain ⟨p, m⟩ := w
    simp only [List.map_cons, List.nodup_cons] at hnd
    have hpr : p ∉ rkeys r := hdisj p (by simp)
    have hdisj2 : ∀ x ∈ rest.map (fun w => w.1), x ∉ rkeys (hset r p m) := by
      intro x hx
      rw [rkeys_hset_not_mem r p m hpr]
      intro hmem
      rcases List.mem_append.mp hmem with h1 | h2
      · exact hdisj x (by simp [hx]) h1
      · exact hnd.1 ((by simpa using h2) ▸ hx)
    rw [writeAll, ih (hset r p m) hnd.2 hdisj2]
    by_cases hp : p = pid
    · subst hp
      have hnone : wsLookup rest p = none := wsLookup_eq_none rest p hnd.1
      have hrn : rlookup r p = none := (rlookup_eq_none_iff r p).mpr hpr
      simp [wsLookup, hnone, rlookup_hset_self, hrn]
    · simp [wsLookup, hp, rlookup_hset_other r p m pid (Ne.symm hp)]

theorem lookupStock_cons (row : StockRow) (rest : List StockRow) (pid : Int) :
    lookupStock (row :: rest) pid
      = if row.1 = pid then some row.2 else lookupStock rest pid := by
  by_cases hp : row.1 = pid <;> simp [lookupStock, List.find?_cons, hp]

theorem findProduct_cons (p : Product) (rest : List Product) (pid : Int) :
    findProduct (p :: rest) pid
      = if p.id = pid then some p else findProduct rest pid := by
  by_cases hp : p.id = pid <;> simp [findProduct, List.find?_cons, hp]

theorem joinRows_keys_sublist (stocks : List StockRow) (products : List Product) :
    ((joinRows stocks products).map JoinedRow.product_id).Sublist
      (stocks.map (fun row => row.1)) := by
  induction stocks with
  | nil => simp [joinRows]
  | cons row rest ih =>
    rw [joinRows]
    cases findProduct products row.1 with
    | some p =>
      simp only [List.map_cons]
      exact List.Sublist.cons₂ _ ih
    | none =>
      simp only [List.map_cons]
      exact List.Sublist.cons _ ih

theorem joinRows_nil_cases (stocks : List StockRow) (products : List Product)
    (h : joinRows stocks products = []) (pid : Int) :
    lookupStock stocks pid = none ∨ findProduct products pid = none := by
  induction stocks with
  | nil => exact Or.inl rfl
  | cons row rest ih =>
    rw [joinRows] at h
    cases hfp : findProduct products row.1 with
    | some p =>
      rw [hfp] at h
      cases h
    | none =>
      rw [hfp] at h
      by_cases hp : row.1 = pid
      · exact Or.inr (hp ▸ hfp)
      · rcases ih h with h1 | h2
        · exact Or.inl (by rw [lookupStock_cons, if_neg hp]; exact h1)
        · exact Or.inr h2

theorem wsLookup_joinRows (stocks : List StockRow) (products : List Product)
    (pid : Int) (hnd : (stocks.map (fun row => row.1)).Nodup) :
    wsLookup ((joinRows stocks products).map (fun jr => (jr.product_id, fullEntry jr))) pid
      = match lookupStock stocks pid, findProduct products pid with
        | some q, some p =>
          some { quantity := some q, name := some p.name,
                 sku := some p.sku, price := some p.price }
        | _, _ => none := by
  induction stocks with
  | nil => simp [joinRows, wsLookup, lookupStock]
  | cons row rest ih =>
    simp only [List.map_cons, List.nodup_cons] at hnd
    rw [joinRows, lookupStock_cons]
    by_cases hp : row.1 = pid
    · cases hfp : findProduct products row.1 with
      | some p =>
        rw [hp] at hfp
        simp [wsLookup, hp, hfp, fullEntry]
      | none =>
        rw [hp] at hfp
        have hjoin : pid ∉ (joinRows rest products).map JoinedRow.product_id :=
          fun hmem => (hp ▸ hnd.1) ((joinRows_keys_sublist rest products).subset hmem)
        have : wsLookup ((joinRows rest products).map
            (fun jr => (jr.product_id, fullEntry jr))) pid = none := by
          apply wsLookup_eq_none
          simpa [List.map_map, Function.comp] using hjoin
        simp [hp, hfp, this]
    · cases hfp : findProduct products row.1 with
      | some p => simp [wsLookup, hp, ih hnd.2]
      | none => simp [hp, ih hnd.2]

theorem rlookup_populate (db : MySQL) (pid : Int)
    (hnd : (db.stocks.map (fun row => row.1)).Nodup) :
    rlookup (_populate_redis_from_mysql db []) pid
      = match lookupStock db.stocks pid, findProduct db.products pid with
        | some q, some p =>
          some { quantity := some q, name := some p.name,
                 sku := some p.sku, price := some p.price }
        | _, _ => none := by
  rw [_populate_redis_from_mysql]
  cases hrows : (joinRows db.stocks db.products).isEmpty with
  | true =>
    have hnil : joinRows db.stocks db.products = [] := by
      simpa using hrows
    simp only [hrows, if_true]
    rcases joinRows_nil_cases db.stocks db.products hnil pid with h1 | h2
    · rw [h1]
      rfl
    · rw [h2]
      cases lookupStock db.stocks pid <;> rfl
  | false =>
    simp only [hrows, Bool.false_eq_true, if_false]
    have hkeys : (((joinRows db.stocks db.products).map
        (fun jr => (jr.product_id, fullEntry jr))).map (fun w => w.1))
        = (joinRows db.stocks db.products).map JoinedRow.product_id := by
      simp [List.map_map, Function.comp]
    rw [rlookup_writeAll_fresh _ _ _
      (by rw [hkeys]; exact ((joinRows_keys_sublist db.stocks db.products).nodup hnd))
      (by intro x hx; simp [rkeys]),
      wsLookup_joinRows db.stocks db.products pid hnd]
    cases lookupStock db.stocks pid with
    | none => rfl
    | some q => cases findProduct db.products pid <;> rfl

theorem rkeys_populate (db : MySQL)
    (hnd : (db.stocks.map (fun row => row.1)).Nodup) :
    rkeys (_populate_redis_from_mysql db [])
      = (joinRows db.stocks db.products).map JoinedRow.product_id := by
  rw [_populate_redis_from_mysql]
  cases hrows : (joinRows db.stocks db.products).isEmpty with
  | true =>
    have hnil : joinRows db.stocks db.products = [] := by
      simpa using hrows
    simp [hrows, hnil, rkeys]
  | false =>
    simp only [hrows, Bool.false_eq_true, if_false]
    have hkeys : (((joinRows db.stocks db.products).map
        (fun jr => (jr.product_id, fullEntry jr))).map (fun w => w.1))
        = (joinRows db.stocks db.products).map JoinedRow.product_id := by
      simp [List.map_map, Function.comp]
    rw [rkeys_writeAll _ _
      (by rw [hkeys]; exact ((joinRows_keys_sublist db.stocks db.products).nodup hnd))
      (by intro x hx; simp [rkeys]), hkeys]
    simp [rkeys]

/-! ## Lemmas about the Direct Stock Writer -/

theorem countRows_cons (row : StockRow) (rest : List StockRow) (pid : Int) :
    countRows (row :: rest) pid
      = (if row.1 = pid then 1 else 0) + countRows rest pid := by
  by_cases hp : row.1 = pid
  · simp [countRows, List.filter_cons, hp]
    omega
  · simp [countRows, List.filter_cons, hp]

theorem countRows_append (xs ys : List StockRow) (pid : Int) :
    countRows (xs ++ ys) pid = countRows xs pid + countRows ys pid := by
  simp [countRows, List.filter_append]

theorem countRows_sqlUpdateSet (stocks : List StockRow) (pid qty : Int) :
    countRows (sqlUpdateSet stocks pid qty) pid = countRows stocks pid := by
  induction stocks with
  | nil => rfl
  | cons row rest ih =>
    by_cases hp : row.1 = pid <;>
      (simp [sqlUpdateSet, countRows_cons, hp] at ih ⊢;
       simpa [countRows, sqlUpdateSet] using ih)

theorem lookupStock_none_of_countRows_zero (stocks : List StockRow) (pid : Int)
    (h : countRows stocks pid = 0) : lookupStock stocks pid = none := by
  induction stocks with
  | nil => rfl
  | cons row rest ih =>
    rw [countRows_cons] at h
    by_cases hp : row.1 = pid
    · rw [if_pos hp] at h
      omega
    · rw [if_neg hp, zero_add] at h
      rw [lookupStock_cons, if_neg hp]
      exact ih h

theorem lookupStock_append (xs ys : List StockRow) (pid : Int)
    (h : lookupStock xs pid = none) :
    lookupStock (xs ++ ys) pid = lookupStock ys pid := by
  induction xs with
  | nil => rfl
  | cons row rest ih =>
    rw [lookupStock_cons] at h
    by_cases hp : row.1 = pid
    · rw [if_pos hp] at h
      cases h
    · rw [if_neg hp] at h
      rw [List.cons_append, lookupStock_cons, if_neg hp]
      exact ih h

theorem lookupStock_sqlUpdateSet (stocks : List StockRow) (pid qty : Int)
    (h : countRows stocks pid ≠ 0) :
    lookupStock (sqlUpdateSet stocks pid qty) pid = some qty := by
  induction stocks with
  | nil => exact absurd rfl h
  | cons row rest ih =>
    rw [countRows_cons] at h
    by_cases hp : row.1 = pid
    · simp only [sqlUpdateSet, List.map_cons, if_pos hp]
      rw [lookupStock_cons, if_pos hp]
    · rw [if_neg hp, zero_add] at h
      simp only [sqlUpdateSet, List.map_cons, if_neg hp]
      rw [lookupStock_cons, if_neg hp]
      exact ih h

theorem countRows_sqlUpdateSet_zero (stocks : List StockRow) (pid qty : Int)
    (h : countRows stocks pid = 0) : sqlUpdateSet stocks pid qty = stocks := by
  induction stocks with
  | nil => rfl
  | cons row rest ih =>
    rw [countRows_cons] at h
    by_cases hp : row.1 = pid
    · rw [if_pos hp] at h
      omega
    · rw [if_neg hp, zero_add] at h
      simp only [sqlUpdateSet, List.map_cons, if_neg hp] at ih ⊢
      rw [ih h]

/-- Normal form of a failure-free `set_stock_for_product` run. -/
theorem set_stock_for_product_none (st : SysState) (pid qty : Int) (exc : Nat) :
    set_stock_for_product st pid qty none exc =
      { result := WResult.ok (if countRows st.stocks pid = 0
            then "rows added: " ++ toString pid
            else "rows updated: " ++ toString (countRows st.stocks pid))
        state :=
          { stocks := if countRows st.stocks pid = 0
                then sqlUpdateSet st.stocks pid qty ++ [(pid, qty)]
                else sqlUpdateSet st.stocks pid qty
            products := st.products
            redis := hset st.redis pid
              (match findProduct st.products pid with
               | some p =>
                 { quantity := some qty, name := some p.name,
                   sku := some p.sku, price := some p.price }
               | none => { quantity := some qty }) }
        sessionClosed := true } := by
  rw [set_stock_for_product]
  simp

theorem set_stock_sessionClosed (st : SysState) (pid qty : Int)
    (failAt : Option FailPoint) (exc : Nat) :
    (set_stock_for_product st pid qty failAt exc).sessionClosed = true := by
  simp only [set_stock_for_product]
  repeat' split
  all_goals rfl

theorem countRows_map_fst_preserving (stocks : List StockRow)
    (f : StockRow → Int) (pid : Int) :
    countRows (stocks.map (fun row => (row.1, f row))) pid
      = countRows stocks pid := by
  induction stocks with
  | nil => rfl
  | cons row rest ih =>
    by_cases hp : row.1 = pid <;> simp [countRows_cons, hp, ih]

theorem sqlUpdateAdjust_absent (stocks : List StockRow) (pid qty : Int)
    (op : Op) (h : countRows stocks pid = 0) :
    sqlUpdateAdjust stocks pid qty op = stocks := by
  induction stocks with
  | nil => rfl
  | cons row rest ih =>
    rw [countRows_cons] at h
    by_cases hp : row.1 = pid
    · rw [if_pos hp] at h
      omega
    · rw [if_neg hp, zero_add] at h
      simp only [sqlUpdateAdjust, List.map_cons, if_neg hp] at ih ⊢
      rw [ih h]

/-! ## The claims -/

/-- C3: `set_stock_for_product` first issues an UPDATE by key and inserts a
new stock row exactly when that UPDATE matched zero rows; afterwards exactly
one stock row exists for the product id and it carries the written quantity;
the returned status string says whether a row was updated or inserted. -/
theorem claim_C3_upsert (st : SysState) (pid qty : Int)
    (huniq : countRows st.stocks pid ≤ 1) :
    countRows (set_stock_for_product st pid qty none 0).state.stocks pid = 1
    ∧ lookupStock (set_stock_for_product st pid qty none 0).state.stocks pid
        = some qty
    ∧ (set_stock_for_product st pid qty none 0).state.stocks.length
        = (if countRows st.stocks pid = 0 then st.stocks.length + 1
           else st.stocks.length)
    ∧ (set_stock_for_product st pid qty none 0).result
        = WResult.ok (if countRows st.stocks pid = 0
            then "rows added: " ++ toString pid
            else "rows updated: " ++ toString (countRows st.stocks pid)) := by
  rw [set_stock_for_product_none]
  by_cases h0 : countRows st.stocks pid = 0
  · simp only [h0, if_pos rfl, reduceIte]
    refine ⟨?_, ?_, ?_, trivial⟩
    · rw [countRows_append, countRows_sqlUpdateSet, h0, countRows_cons]
      simp [countRows]
    · rw [lookupStock_append _ _ _
        (lookupStock_none_of_countRows_zero _ _
          (by rw [countRows_sqlUpdateSet]; exact h0))]
      rw [lookupStock_cons]
      simp
    · simp [sqlUpdateSet]
  · simp only [h0, if_neg h0, reduceIte]
    refine ⟨?_, ?_, ?_, trivial⟩
    · rw [countRows_sqlUpdateSet]
      omega
    · exact lookupStock_sqlUpdateSet _ _ _ h0
    · simp [sqlUpdateSet]

theorem claim_C3_upsert_witness :
    countRows (SysState.mk [] [] []).stocks 7 ≤ 1
    ∧ countRows (set_stock_for_product (SysState.mk [] [] []) 7 4 none 0).state.stocks 7
        = 1 :=
  ⟨by decide, (claim_C3_upsert (SysState.mk [] [] []) 7 4 (by decide)).1⟩

/-- C7: whenever a failure occurs in `set_stock_for_product`, the same
exception is re-raised to the caller unchanged; a failure at any point up to
and including the commit leaves the whole state unchanged (the rollback
discards the pending transaction); and the session is closed on every exit
path, success and failure alike. -/
theorem claim_C7_rollback_reraise_close (st : SysState) (pid qty : Int)
    (fp : FailPoint) (exc : Nat)
    (hreach : fp = FailPoint.insertStep → countRows st.stocks pid = 0) :
    (set_stock_for_product st pid qty (some fp) exc).result = WResult.err exc
    ∧ ((fp = FailPoint.updateStep ∨ fp = FailPoint.insertStep
          ∨ fp = FailPoint.commitStep) →
        (set_stock_for_product st pid qty (some fp) exc).state = st)
    ∧ (∀ failAt : Option FailPoint,
        (set_stock_for_product st pid qty failAt exc).sessionClosed = true) := by
  refine ⟨?_, ?_, fun failAt => set_stock_sessionClosed st pid qty failAt exc⟩
  · cases fp with
    | updateStep => simp [set_stock_for_product]
    | insertStep => simp [set_stock_for_product, hreach rfl]
    | commitStep => simp [set_stock_for_product]
    | queryStep => simp [set_stock_for_product]
    | hsetStep => simp [set_stock_for_product]
  · intro hfp
    rcases hfp with h | h | h <;> subst h
    · simp [set_stock_for_product]
    · simp [set_stock_for_product, hreach rfl]
    · simp [set_stock_for_product]

theorem claim_C7_witness :
    (FailPoint.commitStep = FailPoint.insertStep →
      countRows (SysState.mk [] [] []).stocks 3 = 0)
    ∧ (set_stock_for_product (SysState.mk [] [] []) 3 9
        (some FailPoint.commitStep) 42).result = WResult.err 42 :=
  ⟨by decide,
   (claim_C7_rollback_reraise_close (SysState.mk [] [] []) 3 9
     FailPoint.commitStep 42 (by decide)).1⟩

/-- C9: with no stock row, no product and no cache entry for id 5, a direct
write of quantity 0 reports a "rows added" message and the written cache entry
holds only the quantity field, with value 0. -/
theorem claim_C9_missing_product_scenario (st : SysState)
    (hrow : countRows st.stocks 5 = 0)
    (hprod : findProduct st.products 5 = none)
    (hredis : rlookup st.redis 5 = none) :
    (set_stock_for_product st 5 0 none 0).result = WResult.ok "rows added: 5"
    ∧ rlookup (set_stock_for_product st 5 0 none 0).state.redis 5
        = some { quantity := some 0, name := none, sku := none, price := none } := by
  rw [set_stock_for_product_none]
  refine ⟨?_, ?_⟩
  · simp only [hrow, reduceIte]
    rfl
  · simp only [hprod]
    rw [rlookup_hset_self]
    rw [hredis]

theorem claim_C9_witness :
    (countRows (SysState.mk [] [] []).stocks 5 = 0
      ∧ findProduct (SysState.mk [] [] []).products 5 = none
      ∧ rlookup (SysState.mk [] [] []).redis 5 = none)
    ∧ (set_stock_for_product (SysState.mk [] [] []) 5 0 none 0).result
        = WResult.ok "rows added: 5" :=
  ⟨⟨rfl, rfl, rfl⟩,
   (claim_C9_missing_product_scenario (SysState.mk [] [] []) rfl rfl rfl).1⟩

/-- C4 (divergence witness): `update_stock_mysql` decides the accessor from
`order_items[0]` on every iteration, so a sequence mixing both item shapes is
not normalized per item: with a dict first and an object second, the object is
subscripted and raises `TypeError` after only the first statement ran. -/
theorem claim_C4_mixed_shapes_fail :
    update_stock_mysql [((1 : Int), (5 : Int)), (2, 5)]
      [OrderItem.map 1 2 none, OrderItem.obj 2 3 none] Op.plus
      = ([(1, 7), (2, 5)], some PyError.typeError) := by decide

/-- C10: an item whose product id has no stock row leaves the store of record
unchanged for that id: its UPDATE statement affects zero rows, nothing is
inserted, no error is raised, and a single-item call returns the stocks
unchanged. -/
theorem claim_C10_no_upsert (stocks : List StockRow) (items : List OrderItem)
    (i : OrderItem) (op : Op) (pid : Int)
    (hshape : uniformShape items = true)
    (hpid : (normalizeItem i).1 = pid)
    (habs : countRows stocks pid = 0) :
    (update_stock_mysql stocks items op).2 = none
    ∧ countRows (update_stock_mysql stocks items op).1 pid = 0
    ∧ (∀ qty op2, sqlUpdateAdjust stocks pid qty op2 = stocks)
    ∧ update_stock_mysql stocks [i] op = (stocks, none) := by
  rw [update_stock_mysql_uniform stocks items op hshape]
  refine ⟨rfl, ?_, ?_, ?_⟩
  · rw [adjustAll_eq_map]
    rw [countRows_map_fst_preserving]
    exact habs
  · intro qty op2
    exact sqlUpdateAdjust_absent stocks pid qty op2 habs
  · rw [update_stock_mysql_uniform stocks [i] op rfl]
    rw [adjustAll, adjustAll, hpid, sqlUpdateAdjust_absent stocks pid _ op habs]

theorem claim_C10_witness :
    (uniformShape [OrderItem.map 2 3 none] = true
      ∧ (normalizeItem (OrderItem.map 2 3 none)).1 = 2
      ∧ countRows [((1 : Int), (5 : Int))] 2 = 0)
    ∧ (update_stock_mysql [((1 : Int), (5 : Int))]
        [OrderItem.map 2 3 none] Op.plus).2 = none :=
  ⟨⟨by decide, by decide, by decide⟩,
   (claim_C10_no_upsert [((1 : Int), (5 : Int))] [OrderItem.map 2 3 none]
     (OrderItem.map 2 3 none) Op.plus 2 (by decide) (by decide) (by decide)).1⟩

theorem update_stock_redis_skip_populate (db : MySQL) (r : Redis)
    (hr : r ≠ []) : (if r.isEmpty then _populate_redis_from_mysql db r else r) = r := by
  cases r with
  | nil => exact absurd rfl hr
  | cons x xs => rfl

theorem update_stock_redis_ne_nil (db : MySQL) (r : Redis)
    (items : List OrderItem) (op : Op) (hi : items ≠ []) (hr : r ≠ []) :
    update_stock_redis db r items op ≠ [] := by
  rw [update_stock_redis_eq_applyItems db r items op hi,
    update_stock_redis_skip_populate db r hr, applyItems]
  exact writeAll_ne_nil _ _ hr

theorem redis_roundtrip (db : MySQL) (r : Redis) (items : List OrderItem)
    (pid q0 : Int) (op1 op2 : Op)
    (hops : ∀ x d : Int, applyOp op2 (applyOp op1 x d) d = x)
    (hr : r ≠ []) (hqf : qtyField r pid = some q0) :
    qtyField (update_stock_redis db (update_stock_redis db r items op1) items op2)
      pid = some q0 := by
  cases items with
  | nil => simpa [update_stock_redis] using hqf
  | cons i rest =>
    have hi : i :: rest ≠ [] := by simp
    have hg : getQty r pid = q0 := by
      rw [getQty_eq, hqf]
      rfl
    have h1 : update_stock_redis db r (i :: rest) op1 ≠ [] :=
      update_stock_redis_ne_nil db r (i :: rest) op1 hi hr
    have hinner := qtyField_update_stock_redis db r (i :: rest) op1 pid hi hr
    rw [qtyField_update_stock_redis db _ (i :: rest) op2 pid hi h1]
    cases hlast : lastQty pid (i :: rest) with
    | none =>
      rw [hlast] at hinner
      rw [hinner, hqf]
    | some d =>
      rw [hlast] at hinner
      have hmid : getQty (update_stock_redis db r (i :: rest) op1) pid
          = applyOp op1 (getQty r pid) d := by
        rw [getQty_eq, hinner]
        rfl
      rw [hmid]
      show some (applyOp op2 (applyOp op1 (getQty r pid) d) d) = some q0
      rw [hops, hg]

/-- C1: when the `stock:*` scan finds nothing, `update_stock_redis` first
rehydrates the whole cache from MySQL and only then processes the items, so
the rehydrated state is visible to the same call's reads; in particular, with
one stock row `(pid, q0)` and its product on record and an empty cache, an
increment by `d` leaves the cache quantity field at `q0 + d`. -/
theorem claim_C1_rehydrate_first_visible (db : MySQL) (items : List OrderItem)
    (op : Op) (pid q0 d : Int) (nm sk : String) (pr : Rat) (up : Option Rat)
    (hi : items ≠ []) :
    update_stock_redis db [] items op
      = applyItems db (_populate_redis_from_mysql db []) items op
    ∧ qtyField (update_stock_redis (MySQL.mk [(pid, q0)] [Product.mk pid nm sk pr])
        [] [OrderItem.map pid d up] Op.plus) pid = some (q0 + d) := by
  constructor
  · rw [update_stock_redis_eq_applyItems db [] items op hi]
    rfl
  · rw [update_stock_redis_eq_applyItems _ _ _ _ (by simp)]
    have hfp : findProduct [Product.mk pid nm sk pr] pid
        = some (Product.mk pid nm sk pr) := by
      rw [findProduct_cons]
      simp
    have hjoin : joinRows [(pid, q0)] [Product.mk pid nm sk pr]
        = [JoinedRow.mk pid q0 nm sk pr] := by
      simp [joinRows, hfp]
    have hpop : _populate_redis_from_mysql
        (MySQL.mk [(pid, q0)] [Product.mk pid nm sk pr]) []
        = [(pid, fullEntry (JoinedRow.mk pid q0 nm sk pr))] := by
      rw [_populate_redis_from_mysql]
      simp only [hjoin]
      rfl
    simp only [List.isEmpty_nil, if_true, hpop]
    rw [qtyField_applyItems]
    have hlast : lastQty pid [OrderItem.map pid d up] = some d := by
      simp [lastQty, normalizeItem]
    rw [hlast]
    have hget : getQty [(pid, fullEntry (JoinedRow.mk pid q0 nm sk pr))] pid = q0 := by
      simp [getQty, rlookup, fullEntry]
    rw [hget]
    rfl

theorem claim_C1_witness :
    ([OrderItem.map 1 3 none] ≠ ([] : List OrderItem))
    ∧ qtyField (update_stock_redis
        (MySQL.mk [(1, 10)] [Product.mk 1 "Widget" "W1" (999/100)]) []
        [OrderItem.map 1 3 none] Op.plus) 1 = some 13 :=
  ⟨by decide, by
    have h := (claim_C1_rehydrate_first_visible
      (MySQL.mk [(1, 10)] [Product.mk 1 "Widget" "W1" (999/100)])
      [OrderItem.map 1 3 none] Op.plus 1 10 3 "Widget" "W1" (999/100) none
      (by decide)).2
    simpa using h⟩

/-- C2: every per-item read happens before any of the call's queued writes
are flushed, so two items with the same product id are both computed from the
same pre-call quantity: the last item's delta wins and the deltas do not
compound. -/
theorem claim_C2_reads_before_writes (db : MySQL) (r : Redis)
    (i1 i2 : OrderItem) (pid q0 : Int) (op : Op)
    (hr : r ≠ [])
    ( _h1 : (normalizeItem i1).1 = pid) (h2 : (normalizeItem i2).1 = pid)
    (hq : qtyField r pid = some q0) :
    qtyField (update_stock_redis db r [i1, i2] op) pid
      = some (applyOp op q0 (normalizeItem i2).2.1) := by
  rw [qtyField_update_stock_redis db r [i1, i2] op pid (by simp) hr]
  have hlast : lastQty pid [i1, i2] = some (normalizeItem i2).2.1 := by
    simp [lastQty, h2]
  rw [hlast]
  have hget : getQty r pid = q0 := by
    rw [getQty_eq, hq]
    rfl
  rw [hget]

theorem claim_C2_witness :
    (([(1, Entry.mk (some 5) none none none)] : Redis) ≠ []
      ∧ (normalizeItem (OrderItem.map 1 2 none)).1 = 1
      ∧ (normalizeItem (OrderItem.map 1 7 none)).1 = 1
      ∧ qtyField [(1, Entry.mk (some 5) none none none)] 1 = some 5)
    ∧ qtyField (update_stock_redis (MySQL.mk [] [])
        [(1, Entry.mk (some 5) none none none)]
        [OrderItem.map 1 2 none, OrderItem.map 1 7 none] Op.plus) 1 = some 12 :=
  ⟨⟨by decide, by decide, by decide, by decide⟩, by
    have h := claim_C2_reads_before_writes (MySQL.mk [] [])
      [(1, Entry.mk (some 5) none none none)]
      (OrderItem.map 1 2 none) (OrderItem.map 1 7 none) 1 5 Op.plus
      (by decide) (by decide) (by decide) (by decide)
    simpa using h⟩

/-- C5: per normalized item, the current quantity is read from the cache
(missing key or missing field read as 0), the new quantity is current + delta
for '+' and current - delta otherwise, and the queued mapping carries the new
quantity plus name/sku/price when a product exists, price-only from the
item's unit_price otherwise, and nothing further when neither is available;
the call writes exactly these mappings in item order. -/
theorem claim_C5_field_mapping (db : MySQL) (r r1 : Redis)
    (items : List OrderItem) (op : Op) (pid qty : Int) (up : Option Rat)
    (hi : items ≠ []) (hr : r ≠ []) :
    update_stock_redis db r items op
      = writeAll r ((items.map normalizeItem).map (buildMapping db.products r op))
    ∧ (buildMapping db.products r1 op (pid, qty, up)).1 = pid
    ∧ (buildMapping db.products r1 op (pid, qty, up)).2.quantity
        = some (applyOp op (getQty r1 pid) qty)
    ∧ applyOp Op.plus (getQty r1 pid) qty = getQty r1 pid + qty
    ∧ applyOp Op.minus (getQty r1 pid) qty = getQty r1 pid - qty
    ∧ (rlookup r1 pid = none → getQty r1 pid = 0)
    ∧ (∀ e, rlookup r1 pid = some e → e.quantity = none → getQty r1 pid = 0)
    ∧ (∀ e q, rlookup r1 pid = some e → e.quantity = some q → getQty r1 pid = q)
    ∧ (∀ p, findProduct db.products pid = some p →
        (buildMapping db.products r1 op (pid, qty, up)).2
          = Entry.mk (some (applyOp op (getQty r1 pid) qty))
              (some p.name) (some p.sku) (some p.price))
    ∧ (∀ u, findProduct db.products pid = none → up = some u →
        (buildMapping db.products r1 op (pid, qty, up)).2
          = Entry.mk (some (applyOp op (getQty r1 pid) qty)) none none (some u))
    ∧ (findProduct db.products pid = none → up = none →
        (buildMapping db.products r1 op (pid, qty, up)).2
          = Entry.mk (some (applyOp op (getQty r1 pid) qty)) none none none) := by
  refine ⟨?_, buildMapping_fst db.products r1 op (pid, qty, up),
    buildMapping_quantity db.products r1 op pid qty up, rfl, rfl,
    ?_, ?_, ?_, ?_, ?_, ?_⟩
  · rw [update_stock_redis_eq_applyItems db r items op hi,
      update_stock_redis_skip_populate db r hr, applyItems]
  · intro h
    simp [getQty, h]
  · intro e h hq
    simp [getQty, h, hq]
  · intro e q h hq
    simp [getQty, h, hq]
  · intro p hp
    simp [buildMapping, hp]
  · intro u hp hu
    subst hu
    simp [buildMapping, hp]
  · intro hp hu
    subst hu
    simp [buildMapping, hp]

theorem claim_C5_witness :
    (([OrderItem.map 1 1 none] : List OrderItem) ≠ []
      ∧ ([(1, Entry.mk (some 2) none none none)] : Redis) ≠ [])
    ∧ update_stock_redis (MySQL.mk [] []) [(1, Entry.mk (some 2) none none none)]
        [OrderItem.map 1 1 none] Op.plus
      = writeAll [(1, Entry.mk (some 2) none none none)]
          (([OrderItem.map 1 1 none].map normalizeItem).map
            (buildMapping (MySQL.mk ([] : List StockRow)
              ([] : List Product)).products
              [(1, Entry.mk (some 2) none none none)] Op.plus)) :=
  ⟨⟨by decide, by decide⟩,
   (claim_C5_field_mapping (MySQL.mk [] [])
     [(1, Entry.mk (some 2) none none none)]
     [(1, Entry.mk (some 2) none none none)]
     [OrderItem.map 1 1 none] Op.plus 1 1 none (by decide) (by decide)).1⟩

/-- C8: incrementing then decrementing with the same item sequence (or vice
versa) restores every quantity, both in the store of record via
`check_in_items_to_stock`/`check_out_items_from_stock` and in the cache via
`update_stock_redis`, when applied as isolated successive calls. -/
theorem claim_C8_increment_decrement (db : MySQL) (r : Redis)
    (stocks : List StockRow) (items : List OrderItem) (pid : Int)
    (e : Entry) (q0 : Int)
    (hshape : uniformShape items = true)
    (hr : r ≠ []) (he : rlookup r pid = some e) (hq : e.quantity = some q0) :
    (check_out_items_from_stock (check_in_items_to_stock stocks items).1 items).1
        = stocks
    ∧ (check_in_items_to_stock (check_out_items_from_stock stocks items).1 items).1
        = stocks
    ∧ qtyField (update_stock_redis db (update_stock_redis db r items Op.plus)
        items Op.minus) pid = some q0
    ∧ qtyField (update_stock_redis db (update_stock_redis db r items Op.minus)
        items Op.plus) pid = some q0 := by
  have hqf : qtyField r pid = some q0 := by
    rw [qtyField, he]
    exact hq
  refine ⟨?_, ?_, ?_, ?_⟩
  · rw [check_in_items_to_stock, update_stock_mysql_uniform stocks items Op.plus hshape,
      check_out_items_from_stock, update_stock_mysql_uniform _ items Op.minus hshape]
    exact adjustAll_plus_minus stocks items
  · rw [check_out_items_from_stock, update_stock_mysql_uniform stocks items Op.minus hshape,
      check_in_items_to_stock, update_stock_mysql_uniform _ items Op.plus hshape]
    exact adjustAll_minus_plus stocks items
  · exact redis_roundtrip db r items pid q0 Op.plus Op.minus
      (fun x d => by simp [applyOp]) hr hqf
  · exact redis_roundtrip db r items pid q0 Op.minus Op.plus
      (fun x d => by simp [applyOp]) hr hqf

theorem claim_C8_witness :
    (uniformShape [OrderItem.map 1 2 none] = true
      ∧ ([(1, Entry.mk (some 5) none none none)] : Redis) ≠ []
      ∧ rlookup [(1, Entry.mk (some 5) none none none)] 1
          = some (Entry.mk (some 5) none none none)
      ∧ (Entry.mk (some 5) none none none).quantity = some 5)
    ∧ (check_out_items_from_stock
        (check_in_items_to_stock [((1 : Int), (4 : Int))] [OrderItem.map 1 2 none]).1
        [OrderItem.map 1 2 none]).1 = [((1 : Int), (4 : Int))] :=
  ⟨⟨by decide, by decide, by decide, by decide⟩,
   (claim_C8_increment_decrement (MySQL.mk [] [])
     [(1, Entry.mk (some 5) none none none)] [((1 : Int), (4 : Int))]
     [OrderItem.map 1 2 none] 1 (Entry.mk (some 5) none none none) 5
     (by decide) (by decide) (by decide) (by decide)).1⟩

/-- C6: rehydration writes one cache entry per stock row that has a matching
product — the inner join excludes stock rows without a product and products
without a stock row — each entry holding exactly the four fields quantity,
name, sku and price; it is a no-op (not an error) when the store of record
has zero stock rows; and the session is released on every exit path, a fetch
failure being re-raised unchanged. -/
theorem claim_C6_rehydration (db : MySQL) (r : Redis) (pid : Int)
    (queryFails : Bool) (exc : Nat)
    (hnd : (db.stocks.map (fun row => row.1)).Nodup) :
    (db.stocks = [] → _populate_redis_from_mysql db r = r)
    ∧ rkeys (_populate_redis_from_mysql db [])
        = (joinRows db.stocks db.products).map JoinedRow.product_id
    ∧ rlookup (_populate_redis_from_mysql db []) pid
        = (match lookupStock db.stocks pid, findProduct db.products pid with
           | some q, some p =>
             some { quantity := some q, name := some p.name,
                    sku := some p.sku, price := some p.price }
           | _, _ => none)
    ∧ (_populate_redis_from_mysqlE db r queryFails exc).2 = true
    ∧ (queryFails = true →
        (_populate_redis_from_mysqlE db r queryFails exc).1 = Except.error exc) := by
  refine ⟨?_, rkeys_populate db hnd, rlookup_populate db pid hnd, ?_, ?_⟩
  · intro h
    rw [_populate_redis_from_mysql, h]
    rfl
  · rw [_populate_redis_from_mysqlE]
    cases queryFails <;> rfl
  · intro h
    rw [_populate_redis_from_mysqlE, h]
    rfl

theorem claim_C6_witness :
    ((((MySQL.mk [(1, 4)] [Product.mk 1 "A" "S" 2]).stocks).map
        (fun row => row.1)).Nodup
    ∧ rkeys (_populate_redis_from_mysql (MySQL.mk [(1, 4)] [Product.mk 1 "A" "S" 2]) [])
        = (joinRows (MySQL.mk [(1, 4)] [Product.mk 1 "A" "S" 2]).stocks
            (MySQL.mk [(1, 4)] [Product.mk 1 "A" "S" 2]).products).map
            JoinedRow.product_id) :=
  ⟨by decide,
   (claim_C6_rehydration (MySQL.mk [(1, 4)] [Product.mk 1 "A" "S" 2]) [] 1 true 7
     (by decide)).2.1⟩

end WriteStock
